import Mathlib

/-!
Shallow embedding of the URL-shortener service in `src/main.py`.

The Python module keeps three pieces of process state: the in-memory
dictionary `url_db` (short code → destination URL) and two Prometheus
counters, `links_criados_total` and `redirecionamentos_total`.  Three
handlers operate on this state:

* `encurtar_url` (POST /encurtar): rejects a falsy JSON body or a body
  without the key `url_longa` with HTTP 400; otherwise it draws random
  candidate codes with `gerar_codigo_curto` until one is absent from
  `url_db`, stores the binding, increments the creation counter and
  answers 201.
* `redirecionar` (GET /<codigo>): looks the code up with `dict.get`;
  a truthy value (a non-empty string) gives a 302 redirect and bumps the
  redirection counter, anything else gives 404.
* `listar_links` (GET /api/links): returns the whole dictionary.

Modelling choices.  The JSON body is an optional association list
(`none` models a missing/None body, `some []` a falsy empty object).
Python's dictionary is an association list to which fresh keys are
appended, matching CPython's insertion order; `dict.get` is
`List.lookup`.  The random source of `random.choice` is an oracle
`Nat → Nat` (one draw per character), and the successive outputs of
`gerar_codigo_curto` inside the retry loop are an oracle `Nat → String`.
The unbounded `while` loop is given explicit fuel and the handler
returns `none` when the fuel runs out, so termination of the real loop
is the proposition that some fuel suffices.
-/

/-- Python's `string.ascii_lowercase`. -/
def ascii_lowercase : String := "abcdefghijklmnopqrstuvwxyz"

/-- Python's `string.ascii_uppercase`. -/
def ascii_uppercase : String := "ABCDEFGHIJKLMNOPQRSTUVWXYZ"

/-- Python's `string.ascii_letters`. -/
def ascii_letters : String := ascii_lowercase ++ ascii_uppercase

/-- Python's `string.digits`. -/
def string_digits : String := "0123456789"

/-- The alphabet `caracteres = string.ascii_letters + string.digits`
from `gerar_codigo_curto` (src/main.py line 34), as a list of chars. -/
def caracteres : List Char := (ascii_letters ++ string_digits).toList

/-- Python's `random.choice(seq)`: one uniformly random element of the
sequence.  The draw is the oracle value `r`, reduced modulo the length. -/
def random_choice (l : List Char) (r : Nat) : Char :=
  l.getD (r % l.length) ' '

/-- `gerar_codigo_curto(tamanho=6)` (src/main.py lines 33-35): a string of
`tamanho` characters, each an independent `random.choice(caracteres)`.
`rand i` is the i-th draw of the random source. -/
def gerar_codigo_curto (rand : Nat → Nat) (tamanho : Nat := 6) : String :=
  String.mk ((List.range tamanho).map fun i => random_choice caracteres (rand i))

/-- HTTP-level outcomes of the three handlers. -/
inductive Resp where
  | created (url_longa codigo_curto : String)
  | badRequest
  | redirectTo (url : String)
  | notFound
  | listing (links : List (String × String))
deriving DecidableEq, Repr

/-- The process-wide mutable state of src/main.py: `url_db` (line 31) and
the two business counters (lines 14-21). -/
structure AppState where
  url_db : List (String × String)
  links_criados_total : Nat
  redirecionamentos_total : Nat
deriving DecidableEq, Repr

/-- The state at process start: empty dictionary, both counters zero. -/
def initState : AppState := ⟨[], 0, 0⟩

/-- The collision-retry loop of `encurtar_url` (lines 59-62): take
candidates `gen i`, `gen (i+1)`, ... until one is not a key of `db`.
`fuel` bounds the number of candidates examined; `none` means the loop
did not finish within the fuel. -/
def findFreshCode (gen : Nat → String) (db : List (String × String)) :
    Nat → Nat → Option String
  | 0, _ => none
  | fuel + 1, i =>
      let codigo := gen i
      if (db.lookup codigo).isSome then findFreshCode gen db fuel (i + 1)
      else some codigo

/-- Handler `encurtar_url` (src/main.py lines 53-68).  `dados` is the
parsed JSON body.  The Python guard is
`if not dados or 'url_longa' not in dados: return 400`; a falsy body is
`None` or the empty dict.  Otherwise the retry loop binds a fresh code to
`dados['url_longa']`, the creation counter is incremented and the
handler answers 201.  `none` models the loop never terminating. -/
def encurtar_url (gen : Nat → String) (dados : Option (List (String × String)))
    (fuel : Nat) (s : AppState) : Option (Resp × AppState) :=
  match dados with
  | none => some (Resp.badRequest, s)
  | some [] => some (Resp.badRequest, s)
  | some d =>
    match d.lookup "url_longa" with
    | none => some (Resp.badRequest, s)
    | some url_longa =>
      match findFreshCode gen s.url_db fuel 0 with
      | none => none
      | some codigo_curto =>
        some (Resp.created url_longa codigo_curto,
          { url_db := s.url_db ++ [(codigo_curto, url_longa)],
            links_criados_total := s.links_criados_total + 1,
            redirecionamentos_total := s.redirecionamentos_total })

/-- Handler `redirecionar` (src/main.py lines 70-77).  `url_db.get(c)` is
`List.lookup`; the Python test `if url_longa:` is true exactly for a
non-empty string, so a binding to the empty string falls into the 404
branch and the redirection counter is untouched. -/
def redirecionar (codigo_curto : String) (s : AppState) : Resp × AppState :=
  match s.url_db.lookup codigo_curto with
  | some url_longa =>
      if url_longa ≠ "" then
        (Resp.redirectTo url_longa,
          { s with redirecionamentos_total := s.redirecionamentos_total + 1 })
      else (Resp.notFound, s)
  | none => (Resp.notFound, s)

/-- Handler `listar_links` (src/main.py lines 79-81): returns the whole
dictionary, no state change. -/
def listar_links (s : AppState) : Resp × AppState :=
  (Resp.listing s.url_db, s)

/-- One inbound request, with the nondeterminism (body, random stream,
fuel) packaged in the operation. -/
inductive Op where
  | shorten (dados : Option (List (String × String))) (gen : Nat → String) (fuel : Nat)
  | resolve (codigo : String)
  | list

/-- Execute one operation; `none` means the shorten loop did not finish. -/
def step (op : Op) (s : AppState) : Option (Resp × AppState) :=
  match op with
  | Op.shorten dados gen fuel => encurtar_url gen dados fuel s
  | Op.resolve codigo => some (redirecionar codigo s)
  | Op.list => some (listar_links s)

/-- Run a list of operations, discarding responses. -/
def runOps : List Op → AppState → Option AppState
  | [], s => some s
  | op :: rest, s =>
    match step op s with
    | none => none
    | some (_, s') => runOps rest s'

/-- Run a list of operations, collecting responses. -/
def runTrace : List Op → AppState → Option (List Resp × AppState)
  | [], s => some ([], s)
  | op :: rest, s =>
    match step op s with
    | none => none
    | some (r, s') =>
      match runTrace rest s' with
      | none => none
      | some (rs, s'') => some (r :: rs, s'')

/-- States reachable from process start by completed requests. -/
inductive Reachable : AppState → Prop where
  | init : Reachable initState
  | step {s s' : AppState} {op : Op} {r : Resp} :
      Reachable s → step op s = some (r, s') → Reachable s'

/-- Number of 201 responses in a trace (successful shorten calls). -/
def countCreated : List Resp → Nat
  | [] => 0
  | Resp.created _ _ :: rs => countCreated rs + 1
  | _ :: rs => countCreated rs

/-- Number of 302 responses in a trace (successful resolve calls). -/
def countRedirects : List Resp → Nat
  | [] => 0
  | Resp.redirectTo _ :: rs => countRedirects rs + 1
  | _ :: rs => countRedirects rs

/-- Amount `links_criados_total` grows by on a given response: one for a
201, zero otherwise. -/
def createdInc : Resp → Nat
  | Resp.created _ _ => 1
  | _ => 0

/-- Amount `redirecionamentos_total` grows by on a given response: one
for a 302, zero otherwise. -/
def redirectInc : Resp → Nat
  | Resp.redirectTo _ => 1
  | _ => 0

/-! ### Helper lemmas about association-list lookup and the retry loop -/

theorem lookup_append_left {l l' : List (String × String)} {c : String} {u : String}
    (h : l.lookup c = some u) : (l ++ l').lookup c = some u := by
  induction l with
  | nil => simp [List.lookup] at h
  | cons p t ih =>
    obtain ⟨k, v⟩ := p
    by_cases hk : c = k
    · subst hk
      simp [List.lookup] at h ⊢
      exact h
    · have hbeq : (c == k) = false := beq_eq_false_iff_ne.mpr hk
      simp only [List.lookup, hbeq] at h ⊢
      exact ih h

theorem lookup_append_none {l l' : List (String × String)} {c : String}
    (h : l.lookup c = none) : (l ++ l').lookup c = l'.lookup c := by
  induction l with
  | nil => simp
  | cons p t ih =>
    obtain ⟨k, v⟩ := p
    by_cases hk : c = k
    · subst hk
      simp [List.lookup] at h
    · have hbeq : (c == k) = false := beq_eq_false_iff_ne.mpr hk
      simp only [List.lookup, hbeq] at h ⊢
      exact ih h

theorem lookup_eq_none_iff {l : List (String × String)} {c : String} :
    l.lookup c = none ↔ c ∉ l.map Prod.fst := by
  induction l with
  | nil => simp
  | cons p t ih =>
    obtain ⟨k, v⟩ := p
    by_cases hk : c = k
    · subst hk
      simp [List.lookup]
    · have hbeq : (c == k) = false := beq_eq_false_iff_ne.mpr hk
      simp [List.lookup, hbeq, ih, hk]

theorem findFreshCode_fresh {gen : Nat → String} {db : List (String × String)}
    {fuel i : Nat} {c : String} (h : findFreshCode gen db fuel i = some c) :
    db.lookup c = none ∧ ∃ j, c = gen j := by
  induction fuel generalizing i with
  | zero => simp [findFreshCode] at h
  | succ n ih =>
    simp only [findFreshCode] at h
    by_cases hs : (db.lookup (gen i)).isSome
    · rw [if_pos hs] at h
      exact ih h
    · rw [if_neg hs] at h
      injection h with h
      subst h
      exact ⟨Option.not_isSome_iff_eq_none.mp hs, ⟨i, rfl⟩⟩

theorem findFreshCode_isSome {gen : Nat → String} {db : List (String × String)}
    {k j : Nat} (h : db.lookup (gen (j + k)) = none) :
    (findFreshCode gen db (k + 1) j).isSome := by
  induction k generalizing j with
  | zero =>
    simp only [Nat.add_zero] at h
    simp [findFreshCode, h]
  | succ n ih =>
    by_cases hs : (db.lookup (gen j)).isSome
    · simp only [findFreshCode, if_pos hs]
      apply ih
      rw [show j + 1 + n = j + (n + 1) by omega]
      exact h
    · simp [findFreshCode, if_neg hs]

theorem encurtar_url_some {gen : Nat → String}
    {dados : Option (List (String × String))} {fuel : Nat} {s : AppState}
    {r : Resp} {s' : AppState}
    (h : encurtar_url gen dados fuel s = some (r, s')) :
    (r = Resp.badRequest ∧ s' = s ∧
       (dados = none ∨ dados = some [] ∨ (dados.getD []).lookup "url_longa" = none)) ∨
    ∃ url codigo,
      (dados.getD []).lookup "url_longa" = some url ∧
      r = Resp.created url codigo ∧
      s.url_db.lookup codigo = none ∧ (∃ j, codigo = gen j) ∧
      s' = ⟨s.url_db ++ [(codigo, url)],
            s.links_criados_total + 1, s.redirecionamentos_total⟩ := by
  match hd : dados with
  | none =>
    simp only [encurtar_url, Option.some.injEq, Prod.mk.injEq] at h
    exact Or.inl ⟨h.1.symm, h.2.symm, Or.inl rfl⟩
  | some [] =>
    simp only [encurtar_url, Option.some.injEq, Prod.mk.injEq] at h
    exact Or.inl ⟨h.1.symm, h.2.symm, Or.inr (Or.inl rfl)⟩
  | some (p :: t) =>
    match hlk : (p :: t).lookup "url_longa" with
    | none =>
      simp only [encurtar_url, hlk, Option.some.injEq, Prod.mk.injEq] at h
      exact Or.inl ⟨h.1.symm, h.2.symm, Or.inr (Or.inr rfl)⟩
    | some url_longa =>
      match hf : findFreshCode gen s.url_db fuel 0 with
      | none =>
        simp only [encurtar_url, hlk, hf] at h
        exact Option.noConfusion h
      | some codigo =>
        simp only [encurtar_url, hlk, hf, Option.some.injEq, Prod.mk.injEq] at h
        obtain ⟨hfresh, hj⟩ := findFreshCode_fresh hf
        exact Or.inr ⟨url_longa, codigo, rfl, h.1.symm, hfresh, hj, h.2.symm⟩

theorem redirecionar_url_db (c : String) (s : AppState) :
    (redirecionar c s).2.url_db = s.url_db := by
  cases hl : s.url_db.lookup c with
  | none => simp [redirecionar, hl]
  | some u =>
    by_cases hu : u = ""
    · simp [redirecionar, hl, hu]
    · simp [redirecionar, hl, hu]

theorem redirecionar_spec (c : String) (s : AppState) :
    ((s.url_db.lookup c = none ∨ s.url_db.lookup c = some "") ∧
      redirecionar c s = (Resp.notFound, s)) ∨
    (∃ u, s.url_db.lookup c = some u ∧ u ≠ "" ∧
      redirecionar c s = (Resp.redirectTo u,
        ⟨s.url_db, s.links_criados_total, s.redirecionamentos_total + 1⟩)) := by
  cases hl : s.url_db.lookup c with
  | none => exact Or.inl ⟨Or.inl rfl, by simp [redirecionar, hl]⟩
  | some u =>
    by_cases hu : u = ""
    · subst hu
      exact Or.inl ⟨Or.inr rfl, by simp [redirecionar, hl]⟩
    · exact Or.inr ⟨u, rfl, hu, by simp [redirecionar, hl, hu]⟩

theorem random_choice_mem {l : List Char} (hl : l ≠ []) (r : Nat) :
    random_choice l r ∈ l := by
  have hlen : 0 < l.length := List.length_pos.mpr hl
  have hr : r % l.length < l.length := Nat.mod_lt _ hlen
  unfold random_choice
  rw [List.getD_eq_getElem?_getD, List.getElem?_eq_getElem hr]
  simp only [Option.getD_some]
  exact List.getElem_mem hr

/-! ### Claim theorems -/

/-- C6: for every length `n ≥ 0`, `gerar_codigo_curto` returns a string of
exactly `n` characters, each belonging to the 62-character alphabet
`caracteres` of ASCII letters (both cases) and decimal digits, and the
default length is 6 (the value with the length argument omitted equals the
value at length 6). -/
theorem C6_gerar_codigo_curto (rand : Nat → Nat) (n : Nat) :
    (gerar_codigo_curto rand n).length = n ∧
    (∀ ch, ch ∈ (gerar_codigo_curto rand n).toList → ch ∈ caracteres) ∧
    caracteres.length = 62 ∧
    (∀ ch, ch ∈ caracteres → ch.isAlpha = true ∨ ch.isDigit = true) ∧
    gerar_codigo_curto rand = gerar_codigo_curto rand 6 := by
  refine ⟨?_, ?_, by decide, by decide, rfl⟩
  · show ((List.range n).map fun i => random_choice caracteres (rand i)).length = n
    simp
  · intro ch hch
    have hch' : ch ∈ (List.range n).map fun i => random_choice caracteres (rand i) := hch
    obtain ⟨i, _, hi⟩ := List.mem_map.mp hch'
    rw [← hi]
    exact random_choice_mem (by decide) (rand i)

/-- C6 witness: the theorem applied at the identity random stream and
length 3, where the generated code is "abc". -/
theorem C6_witness :
    (gerar_codigo_curto (fun i => i) 3).length = 3 ∧ 'b' ∈ caracteres :=
  ⟨(C6_gerar_codigo_curto (fun i => i) 3).1,
   (C6_gerar_codigo_curto (fun i => i) 3).2.1 'b' (by decide)⟩

/-- C1 (amended): a shorten request whose JSON body is absent (None), an
empty object, or an object without the key `url_longa` fails with
InvalidInput (HTTP 400) with the state unchanged — no binding is added
and no counter is incremented — and the outcome is independent of the
code generator and of the fuel (in particular it holds with fuel 0, so
no code generation is attempted).  A body whose `url_longa` value is the
empty string is NOT rejected (see the counterexample). -/
theorem C1_invalid_body (dados : Option (List (String × String)))
    (h : dados = none ∨ dados = some [] ∨ (dados.getD []).lookup "url_longa" = none)
    (gen : Nat → String) (fuel : Nat) (s : AppState) :
    encurtar_url gen dados fuel s = some (Resp.badRequest, s) := by
  rcases h with h | h | h
  · subst h; rfl
  · subst h; rfl
  · match dados with
    | none => rfl
    | some [] => rfl
    | some (p :: t) =>
      have h' : (p :: t).lookup "url_longa" = none := h
      simp only [encurtar_url, h']

/-- C1 witness: a request with an empty JSON object body is rejected with
400 and the initial state is unchanged. -/
theorem C1_witness :
    encurtar_url (fun _ => "abc") (some []) 5 initState =
      some (Resp.badRequest, initState) :=
  C1_invalid_body (some []) (Or.inr (Or.inl rfl)) (fun _ => "abc") 5 initState

/-- C1 counterexample: the claim says a request with an EMPTY destination
URL fails with 400 and increments no counter; in the code the body
`{"url_longa": ""}` passes the guard (the key is present), a code is
generated and bound to the empty string, the handler answers 201 and
`links_criados_total` is incremented from 0 to 1. -/
theorem C1_counterexample :
    encurtar_url (fun _ => "abc") (some [("url_longa", "")]) 1 initState =
      some (Resp.created "" "abc", ⟨[("abc", "")], 1, 0⟩) ∧
    initState.links_criados_total = 0 ∧
    (AppState.mk [("abc", "")] 1 0).links_criados_total = 1 := by
  exact ⟨by decide, rfl, rfl⟩

/-- C2: round-trip — when a shorten request with a non-empty destination
URL completes, the response carries that URL and a code, and resolving
that code in the resulting state yields a redirect to exactly that URL. -/
theorem C2_roundtrip (url : String) (gen : Nat → String) (fuel : Nat)
    (s : AppState) (r : Resp) (s' : AppState) (hurl : url ≠ "")
    (h : encurtar_url gen (some [("url_longa", url)]) fuel s = some (r, s')) :
    ∃ codigo, r = Resp.created url codigo ∧
      (redirecionar codigo s').1 = Resp.redirectTo url := by
  rcases encurtar_url_some h with ⟨_, _, hbad⟩ | ⟨u, c, hlk, hr, hfresh, _, hs⟩
  · rcases hbad with hb | hb | hb
    · exact absurd hb (by simp)
    · exact absurd hb (by simp)
    · simp [List.lookup] at hb
  · have hu : u = url := by
      simp [List.lookup] at hlk
      exact hlk.symm
    subst hu
    subst hs
    refine ⟨c, hr, ?_⟩
    have hlc : ((AppState.mk (s.url_db ++ [(c, u)]) (s.links_criados_total + 1)
        s.redirecionamentos_total).url_db).lookup c = some u := by
      show (s.url_db ++ [(c, u)]).lookup c = some u
      rw [lookup_append_none hfresh]
      simp [List.lookup]
    simp [redirecionar, hlc, hurl]

/-- C2 witness: shortening "http://x" from the initial state with a
generator that proposes "abc" and then resolving the returned code. -/
theorem C2_witness :
    ∃ codigo, Resp.created "http://x" "abc" = Resp.created "http://x" codigo ∧
      (redirecionar codigo ⟨[("abc", "http://x")], 1, 0⟩).1 =
        Resp.redirectTo "http://x" :=
  C2_roundtrip "http://x" (fun _ => "abc") 1 initState
    (Resp.created "http://x" "abc") ⟨[("abc", "http://x")], 1, 0⟩
    (by decide) (by decide)

/-- C10: a shorten request with body containing the key `url_longa` bound
to the empty string succeeds: the response is 201 with the empty URL and
a fresh code, the binding code → "" is appended to the store,
`links_criados_total` is incremented; yet resolving that code afterwards
answers NotFound without touching `redirecionamentos_total` (the lookup
treats the falsy stored value as absent), while the listing still
contains the binding. -/
theorem C10_empty_url_accepted (gen : Nat → String) (fuel : Nat)
    (s : AppState) (r : Resp) (s' : AppState)
    (h : encurtar_url gen (some [("url_longa", "")]) fuel s = some (r, s')) :
    ∃ codigo,
      r = Resp.created "" codigo ∧
      s.url_db.lookup codigo = none ∧
      s'.url_db = s.url_db ++ [(codigo, "")] ∧
      s'.links_criados_total = s.links_criados_total + 1 ∧
      redirecionar codigo s' = (Resp.notFound, s') ∧
      s'.redirecionamentos_total = s.redirecionamentos_total ∧
      (listar_links s').1 = Resp.listing s'.url_db ∧
      (codigo, "") ∈ s'.url_db := by
  rcases encurtar_url_some h with ⟨_, _, hbad⟩ | ⟨u, c, hlk, hr, hfresh, _, hs⟩
  · rcases hbad with hb | hb | hb
    · exact absurd hb (by simp)
    · exact absurd hb (by simp)
    · simp [List.lookup] at hb
  · have hu : u = "" := by
      simp [List.lookup] at hlk
      exact hlk.symm
    subst hu
    subst hs
    have hlc : (s.url_db ++ [(c, "")]).lookup c = some "" := by
      rw [lookup_append_none hfresh]
      simp [List.lookup]
    refine ⟨c, hr, hfresh, rfl, rfl, ?_, rfl, rfl, ?_⟩
    · show redirecionar c _ = _
      simp [redirecionar, hlc]
    · simp

/-- C10 witness: the theorem applied from the initial state with a
generator proposing "abc" and fuel 1. -/
theorem C10_witness :
    ∃ codigo,
      Resp.created "" "abc" = Resp.created "" codigo ∧
      initState.url_db.lookup codigo = none ∧
      (AppState.mk [("abc", "")] 1 0).url_db = initState.url_db ++ [(codigo, "")] ∧
      (AppState.mk [("abc", "")] 1 0).links_criados_total =
        initState.links_criados_total + 1 ∧
      redirecionar codigo ⟨[("abc", "")], 1, 0⟩ =
        (Resp.notFound, ⟨[("abc", "")], 1, 0⟩) ∧
      (AppState.mk [("abc", "")] 1 0).redirecionamentos_total =
        initState.redirecionamentos_total ∧
      (listar_links ⟨[("abc", "")], 1, 0⟩).1 =
        Resp.listing (AppState.mk [("abc", "")] 1 0).url_db ∧
      (codigo, "") ∈ (AppState.mk [("abc", "")] 1 0).url_db :=
  C10_empty_url_accepted (fun _ => "abc") 1 initState
    (Resp.created "" "abc") ⟨[("abc", "")], 1, 0⟩ (by decide)

theorem nodupKeys_reachable {s : AppState} (h : Reachable s) :
    (s.url_db.map Prod.fst).Nodup := by
  induction h with
  | init => simp [initState]
  | step hr hstep ih =>
    rename_i s₀ s₁ op r
    cases op with
    | shorten dados gen fuel =>
      simp only [step] at hstep
      rcases encurtar_url_some hstep with ⟨_, hs, _⟩ | ⟨url, cod, _, _, hfresh, _, hs⟩
      · subst hs; exact ih
      · subst hs
        show ((s₀.url_db ++ [(cod, url)]).map Prod.fst).Nodup
        rw [List.map_append, List.nodup_append]
        refine ⟨ih, by simp, ?_⟩
        intro a ha hb
        simp at hb
        subst hb
        exact lookup_eq_none_iff.mp hfresh ha
    | resolve codigo =>
      simp only [step, Option.some.injEq] at hstep
      have h2 : s₁.url_db = s₀.url_db := by
        rw [show s₁ = (redirecionar codigo s₀).2 from (congrArg Prod.snd hstep).symm]
        exact redirecionar_url_db codigo s₀
      rw [h2]
      exact ih
    | list =>
      simp only [step, listar_links, Option.some.injEq, Prod.mk.injEq] at hstep
      rw [← hstep.2]
      exact ih

/-- C3: uniqueness — in every reachable state the store binds each short
code to at most one destination URL (its keys are pairwise distinct), and
every successful shorten call inserts a code that was unbound at that
moment, appending the new binding without overwriting any existing one,
and keeps the keys pairwise distinct. -/
theorem C3_uniqueness {s : AppState} (hreach : Reachable s) :
    (s.url_db.map Prod.fst).Nodup ∧
    (∀ gen dados fuel r s' url codigo,
      encurtar_url gen dados fuel s = some (r, s') →
      r = Resp.created url codigo →
      s.url_db.lookup codigo = none ∧
      s'.url_db = s.url_db ++ [(codigo, url)] ∧
      (s'.url_db.map Prod.fst).Nodup) := by
  refine ⟨nodupKeys_reachable hreach, ?_⟩
  intro gen dados fuel r s' url codigo h hr
  rcases encurtar_url_some h with ⟨hbad, _, _⟩ | ⟨url', cod', _, hr', hfresh, _, hs⟩
  · rw [hr] at hbad
    exact Resp.noConfusion hbad
  · rw [hr] at hr'
    injection hr' with h1 h2
    subst h1
    subst h2
    subst hs
    refine ⟨hfresh, rfl, ?_⟩
    exact nodupKeys_reachable (Reachable.step hreach
      (show step (Op.shorten dados gen fuel) s = some (r, _) from by
        simp only [step]; rw [h, hr]))

/-- C3 witness: the theorem applied at the reachable state obtained by one
successful shorten from the initial state. -/
theorem C3_witness :
    ((AppState.mk [("abc", "u")] 1 0).url_db.map Prod.fst).Nodup :=
  (C3_uniqueness (Reachable.step Reachable.init
    (show step (Op.shorten (some [("url_longa", "u")]) (fun _ => "abc") 1)
        initState = some (Resp.created "u" "abc", ⟨[("abc", "u")], 1, 0⟩)
      from by decide))).1

/-- C7: binding immutability — in any reachable state, any single
completed operation (shorten, resolve or list) preserves every existing
binding: a code bound to a URL is still bound to that same URL
afterwards. -/
theorem C7_binding_immutable {s : AppState} (hreach : Reachable s)
    (op : Op) (r : Resp) (s' : AppState) (h : step op s = some (r, s'))
    (c u : String) (hcu : s.url_db.lookup c = some u) :
    s'.url_db.lookup c = some u := by
  cases op with
  | shorten dados gen fuel =>
    simp only [step] at h
    rcases encurtar_url_some h with ⟨_, hs, _⟩ | ⟨url, cod, _, _, _, _, hs⟩
    · subst hs; exact hcu
    · subst hs; exact lookup_append_left hcu
  | resolve codigo =>
    simp only [step, Option.some.injEq] at h
    rw [show s' = (redirecionar codigo s).2 from (congrArg Prod.snd h).symm,
      redirecionar_url_db]
    exact hcu
  | list =>
    simp only [step, listar_links, Option.some.injEq, Prod.mk.injEq] at h
    rw [← h.2]
    exact hcu

/-- C7 witness: after one shorten reaching the state binding "abc" → "u",
a resolve of an unrelated code leaves "abc" bound to "u". -/
theorem C7_witness :
    (AppState.mk [("abc", "u")] 1 0).url_db.lookup "abc" = some "u" :=
  C7_binding_immutable
    (Reachable.step Reachable.init
      (show step (Op.shorten (some [("url_longa", "u")]) (fun _ => "abc") 1)
          initState = some (Resp.created "u" "abc", ⟨[("abc", "u")], 1, 0⟩)
        from by decide))
    (Op.resolve "zzz") Resp.notFound ⟨[("abc", "u")], 1, 0⟩ (by decide)
    "abc" "u" (by decide)

theorem step_counters {op : Op} {s : AppState} {r : Resp} {s' : AppState}
    (h : step op s = some (r, s')) :
    s'.links_criados_total = s.links_criados_total + createdInc r ∧
    s'.redirecionamentos_total = s.redirecionamentos_total + redirectInc r := by
  cases op with
  | shorten dados gen fuel =>
    simp only [step] at h
    rcases encurtar_url_some h with ⟨hr, hs, _⟩ | ⟨url, cod, _, hr, _, _, hs⟩ <;>
      subst hr <;> subst hs <;> simp [createdInc, redirectInc]
  | resolve codigo =>
    simp only [step, Option.some.injEq] at h
    rcases redirecionar_spec codigo s with ⟨_, heq⟩ | ⟨u, _, _, heq⟩ <;>
      rw [heq, Prod.mk.injEq] at h <;>
      obtain ⟨h1, h2⟩ := h
    · subst h1
      subst h2
      simp [createdInc, redirectInc]
    · subst h1
      subst h2
      simp [createdInc, redirectInc]
  | list =>
    simp only [step, listar_links, Option.some.injEq, Prod.mk.injEq] at h
    obtain ⟨h1, h2⟩ := h
    subst h1
    subst h2
    simp [createdInc, redirectInc]

theorem runTrace_counters {ops : List Op} {s : AppState} {rs : List Resp}
    {s' : AppState} (h : runTrace ops s = some (rs, s')) :
    s'.links_criados_total = s.links_criados_total + countCreated rs ∧
    s'.redirecionamentos_total = s.redirecionamentos_total + countRedirects rs := by
  induction ops generalizing s rs with
  | nil =>
    simp only [runTrace, Option.some.injEq, Prod.mk.injEq] at h
    rw [← h.2, ← h.1]
    simp [countCreated, countRedirects]
  | cons op rest ih =>
    match hstep : step op s with
    | none =>
      simp only [runTrace, hstep] at h
      exact Option.noConfusion h
    | some (r, t) =>
      match htr : runTrace rest t with
      | none =>
        simp only [runTrace, hstep, htr] at h
        exact Option.noConfusion h
      | some (rs2, s2) =>
        simp only [runTrace, hstep, htr, Option.some.injEq, Prod.mk.injEq] at h
        obtain ⟨hrs, hs2⟩ := h
        subst hs2
        obtain ⟨hL, hR⟩ := ih htr
        obtain ⟨gL, gR⟩ := step_counters hstep
        rw [← hrs]
        constructor
        · rw [hL, gL]
          cases r <;> (simp [countCreated, createdInc]; try omega)
        · rw [hR, gR]
          cases r <;> (simp [countRedirects, redirectInc]; try omega)

/-- C5: counter accuracy and monotonicity — starting from the fresh
process state, after a run whose trace holds K successful shorten
responses (201) and M successful resolve responses (302),
`links_criados_total = K` and `redirecionamentos_total = M`; moreover any
single completed operation increments the creation counter by exactly one
when it answers 201 and by zero otherwise, increments the redirection
counter by exactly one when it answers 302 and by zero otherwise, and
never decrements either counter. -/
theorem C5_counters (ops : List Op) (rs : List Resp) (s' : AppState)
    (h : runTrace ops initState = some (rs, s')) :
    s'.links_criados_total = countCreated rs ∧
    s'.redirecionamentos_total = countRedirects rs ∧
    (∀ op s r t, step op s = some (r, t) →
      t.links_criados_total = s.links_criados_total + createdInc r ∧
      t.redirecionamentos_total = s.redirecionamentos_total + redirectInc r ∧
      s.links_criados_total ≤ t.links_criados_total ∧
      s.redirecionamentos_total ≤ t.redirecionamentos_total) := by
  obtain ⟨h1, h2⟩ := runTrace_counters h
  refine ⟨by simpa [initState] using h1, by simpa [initState] using h2, ?_⟩
  intro op s r t hst
  obtain ⟨g1, g2⟩ := step_counters hst
  exact ⟨g1, g2, by omega, by omega⟩

/-- C5 witness: one successful shorten then one successful resolve from
the fresh state yield counters 1 and 1, matching the trace counts. -/
theorem C5_witness :
    (AppState.mk [("abc", "u")] 1 1).links_criados_total =
      countCreated [Resp.created "u" "abc", Resp.redirectTo "u"] ∧
    (AppState.mk [("abc", "u")] 1 1).redirecionamentos_total =
      countRedirects [Resp.created "u" "abc", Resp.redirectTo "u"] :=
  ⟨(C5_counters
      [Op.shorten (some [("url_longa", "u")]) (fun _ => "abc") 1, Op.resolve "abc"]
      [Resp.created "u" "abc", Resp.redirectTo "u"]
      ⟨[("abc", "u")], 1, 1⟩ (by decide)).1,
   (C5_counters
      [Op.shorten (some [("url_longa", "u")]) (fun _ => "abc") 1, Op.resolve "abc"]
      [Resp.created "u" "abc", Resp.redirectTo "u"]
      ⟨[("abc", "u")], 1, 1⟩ (by decide)).2.1⟩

theorem step_url_db_cases {op : Op} {s : AppState} {r : Resp} {s' : AppState}
    (h : step op s = some (r, s')) :
    s'.url_db = s.url_db ∨
    ∃ codigo url, r = Resp.created url codigo ∧
      s.url_db.lookup codigo = none ∧ (∃ dados gen fuel i,
        op = Op.shorten dados gen fuel ∧ codigo = gen i) ∧
      s'.url_db = s.url_db ++ [(codigo, url)] := by
  cases op with
  | shorten dados gen fuel =>
    simp only [step] at h
    rcases encurtar_url_some h with ⟨_, hs, _⟩ | ⟨url, cod, _, hr, hfresh, ⟨j, hj⟩, hs⟩
    · subst hs; exact Or.inl rfl
    · subst hs
      exact Or.inr ⟨cod, url, hr, hfresh, ⟨dados, gen, fuel, j, rfl, hj⟩, rfl⟩
  | resolve codigo =>
    simp only [step, Option.some.injEq] at h
    exact Or.inl (by
      rw [show s' = (redirecionar codigo s).2 from (congrArg Prod.snd h).symm]
      exact redirecionar_url_db codigo s)
  | list =>
    simp only [step, listar_links, Option.some.injEq, Prod.mk.injEq] at h
    exact Or.inl (by rw [← h.2])

theorem runOps_preserves_unbound {c : String} {ops : List Op} {s s' : AppState}
    (hc : s.url_db.lookup c = none)
    (hops : ∀ op ∈ ops, ∀ dados gen fuel, op = Op.shorten dados gen fuel →
      ∀ i, gen i ≠ c)
    (hrun : runOps ops s = some s') :
    s'.url_db.lookup c = none := by
  induction ops generalizing s with
  | nil =>
    simp only [runOps, Option.some.injEq] at hrun
    rw [← hrun]
    exact hc
  | cons op rest ih =>
    match hstep : step op s with
    | none =>
      simp only [runOps, hstep] at hrun
      exact Option.noConfusion hrun
    | some (r, t) =>
      simp only [runOps, hstep] at hrun
      refine ih ?_ (fun o ho => hops o (List.mem_cons_of_mem _ ho)) hrun
      rcases step_url_db_cases hstep with hdb | ⟨cod, url, _, _, ⟨dados, gen, fuel, i, hop, hcod⟩, hdb⟩
      · rw [hdb]; exact hc
      · rw [hdb, lookup_append_none hc]
        have hne : c ≠ cod := by
          intro he
          exact hops op (List.mem_cons_self _ _) dados gen fuel hop i
            (by rw [← hcod, ← he])
        simp [List.lookup, beq_eq_false_iff_ne.mpr hne]

/-- C8: not-found stability — a code `c` unbound in the store resolves to
NotFound, and after any completed run of operations in which every
shorten call's generator never proposes `c`, the code `c` is still
unbound and still resolves to NotFound; moreover a completed shorten
call leaves the resolve outcome of every code other than the one it
binds unchanged. -/
theorem C8_notfound_stability (c : String) (ops : List Op) (s s' : AppState)
    (hc : s.url_db.lookup c = none)
    (hops : ∀ op ∈ ops, ∀ dados gen fuel, op = Op.shorten dados gen fuel →
      ∀ i, gen i ≠ c)
    (hrun : runOps ops s = some s') :
    (redirecionar c s).1 = Resp.notFound ∧
    s'.url_db.lookup c = none ∧
    (redirecionar c s').1 = Resp.notFound ∧
    (∀ gen dados fuel r t, encurtar_url gen dados fuel s = some (r, t) →
      ∀ d, (∀ url codigo, r = Resp.created url codigo → d ≠ codigo) →
        (redirecionar d t).1 = (redirecionar d s).1) := by
  have hs' : s'.url_db.lookup c = none :=
    runOps_preserves_unbound hc hops hrun
  refine ⟨by simp [redirecionar, hc], hs', by simp [redirecionar, hs'], ?_⟩
  intro gen dados fuel r t h d hd
  rcases encurtar_url_some h with ⟨_, hs, _⟩ | ⟨url, cod, _, hr, hfresh, _, hs⟩
  · rw [hs]
  · have hne : d ≠ cod := hd url cod hr
    subst hs
    show (redirecionar d ⟨s.url_db ++ [(cod, url)], _, _⟩).1 = _
    cases hl : s.url_db.lookup d with
    | none =>
      have h2 : (s.url_db ++ [(cod, url)]).lookup d = none := by
        rw [lookup_append_none hl]
        simp [List.lookup, beq_eq_false_iff_ne.mpr hne]
      simp [redirecionar, hl, h2]
    | some u =>
      have h2 : (s.url_db ++ [(cod, url)]).lookup d = some u :=
        lookup_append_left hl
      by_cases hu : u = "" <;> simp [redirecionar, hl, h2, hu]

/-- C8 witness: "doesnotexist" still resolves to NotFound after a shorten
call that binds "abc". -/
theorem C8_witness :
    (redirecionar "doesnotexist" (AppState.mk [("abc", "u")] 1 0)).1 =
      Resp.notFound :=
  (C8_notfound_stability "doesnotexist"
    [Op.shorten (some [("url_longa", "u")]) (fun _ => "abc") 1]
    initState ⟨[("abc", "u")], 1, 0⟩ (by decide)
    (by
      intro op hop dados gen fuel heq i
      rw [List.mem_singleton] at hop
      subst hop
      injection heq with h1 h2 h3
      subst h2
      intro hcontra
      simp at hcontra)
    (by decide)).2.2.1

/-- C4 (amended): resolve answers NotFound exactly when no binding exists
for the code OR the bound destination URL is the empty string (the
lookup's truthiness test conflates the two); on NotFound the state is
unchanged (no counter mutated); when the code is bound to a non-empty
URL, resolve returns that URL and increments `redirecionamentos_total`
by exactly one, leaving the store and the creation counter unchanged. -/
theorem C4_resolve (c : String) (s : AppState) :
    ((redirecionar c s).1 = Resp.notFound ↔
      (s.url_db.lookup c = none ∨ s.url_db.lookup c = some "")) ∧
    ((redirecionar c s).1 = Resp.notFound → (redirecionar c s).2 = s) ∧
    (∀ u, s.url_db.lookup c = some u → u ≠ "" →
      redirecionar c s = (Resp.redirectTo u,
        ⟨s.url_db, s.links_criados_total, s.redirecionamentos_total + 1⟩)) := by
  rcases redirecionar_spec c s with ⟨hcase, heq⟩ | ⟨u, hl, hu, heq⟩
  · refine ⟨⟨fun _ => hcase, fun _ => by rw [heq]⟩, fun _ => by rw [heq], ?_⟩
    intro v hv hvne
    rcases hcase with hn | hn
    · rw [hn] at hv; exact Option.noConfusion hv
    · rw [hn] at hv
      injection hv with hv
      exact absurd hv.symm hvne
  · refine ⟨⟨fun hnf => ?_, fun _ => ?_⟩, fun hnf => ?_, ?_⟩
    · rw [heq] at hnf
      exact Resp.noConfusion hnf
    · rcases ‹s.url_db.lookup c = none ∨ s.url_db.lookup c = some ""› with hn | hn
      · rw [hn] at hl; exact Option.noConfusion hl
      · rw [hn] at hl
        injection hl with hl
        exact absurd hl.symm hu
    · rw [heq] at hnf
      exact Resp.noConfusion hnf
    · intro v hv hvne
      rw [hl] at hv
      injection hv with hv
      rw [heq, ← hv]

/-- C4 witness: a code bound to a non-empty URL redirects to it and bumps
the redirection counter from 0 to 1. -/
theorem C4_witness :
    redirecionar "abc" ⟨[("abc", "http://x")], 1, 0⟩ =
      (Resp.redirectTo "http://x", ⟨[("abc", "http://x")], 1, 0 + 1⟩) :=
  (C4_resolve "abc" ⟨[("abc", "http://x")], 1, 0⟩).2.2 "http://x"
    (by decide) (by decide)

/-- C4 counterexample: the claim's "NotFound iff no binding exists" fails
on the code: the state reached by shortening the empty string binds
"abc" to "", so a binding exists, yet resolve("abc") answers NotFound. -/
theorem C4_counterexample :
    encurtar_url (fun _ => "abc") (some [("url_longa", "")]) 1 initState =
      some (Resp.created "" "abc", ⟨[("abc", "")], 1, 0⟩) ∧
    (AppState.mk [("abc", "")] 1 0).url_db.lookup "abc" = some "" ∧
    (redirecionar "abc" ⟨[("abc", "")], 1, 0⟩).1 = Resp.notFound := by
  exact ⟨by decide, by decide, by decide⟩

theorem encurtar_url_eq_none {gen : Nat → String} {d : List (String × String)}
    {url : String} {fuel : Nat} {s : AppState}
    (hd : d.lookup "url_longa" = some url)
    (hf : findFreshCode gen s.url_db fuel 0 = none) :
    encurtar_url gen (some d) fuel s = none := by
  match d with
  | [] => simp [List.lookup] at hd
  | p :: t =>
    have hd' : (p :: t).lookup "url_longa" = some url := hd
    simp only [encurtar_url, hd', hf]

/-- C9 (amended): the shorten handler retries code generation while the
candidate collides with an existing key; whenever the generator stream
eventually proposes a code that is unbound in the current store (with a
valid body), some finite number of iterations suffices and the handler
terminates successfully, returning 201 with a code that was unbound at
insertion — the caller observes only success or InvalidInput, never a
collision outcome.  (As originally stated — termination whenever ANY
code of the current length is unbound — the claim fails: a generator
stream that forever repeats an already-bound candidate loops forever;
see the counterexample.) -/
theorem C9_termination (gen : Nat → String) (d : List (String × String))
    (url : String) (s : AppState)
    (hd : d.lookup "url_longa" = some url)
    (hgen : ∃ i, s.url_db.lookup (gen i) = none) :
    ∃ fuel r s', encurtar_url gen (some d) fuel s = some (r, s') ∧
      ∃ codigo, r = Resp.created url codigo ∧
        s.url_db.lookup codigo = none := by
  obtain ⟨i, hi⟩ := hgen
  have hsome : (findFreshCode gen s.url_db (i + 1) 0).isSome :=
    findFreshCode_isSome (by simpa using hi)
  obtain ⟨c, hc⟩ := Option.isSome_iff_exists.mp hsome
  obtain ⟨hfresh, _⟩ := findFreshCode_fresh hc
  match d with
  | [] => simp [List.lookup] at hd
  | p :: t =>
    have hd' : (p :: t).lookup "url_longa" = some url := hd
    refine ⟨i + 1, Resp.created url c,
      ⟨s.url_db ++ [(c, url)], s.links_criados_total + 1,
        s.redirecionamentos_total⟩, ?_, c, rfl, hfresh⟩
    simp only [encurtar_url, hd', hc]

/-- C9 witness: from the initial state a constant generator terminates at
the first iteration. -/
theorem C9_witness :
    ∃ fuel r s',
      encurtar_url (fun _ => "abc") (some [("url_longa", "u")]) fuel initState =
        some (r, s') ∧
      ∃ codigo, r = Resp.created "u" codigo ∧
        initState.url_db.lookup codigo = none :=
  C9_termination (fun _ => "abc") [("url_longa", "u")] "u" initState
    (by decide) ⟨0, by decide⟩

/-- C9 counterexample: with "aaaaaa" already bound, an unbound length-6
code exists ("bbbbbb"), yet a generator stream that always proposes
"aaaaaa" makes the retry loop run forever: no amount of fuel makes the
handler return. -/
theorem C9_counterexample :
    (AppState.mk [("aaaaaa", "u")] 1 0).url_db.lookup "bbbbbb" = none ∧
    "bbbbbb".length = 6 ∧
    ¬ ∃ fuel out,
      encurtar_url (fun _ => "aaaaaa") (some [("url_longa", "http://x")]) fuel
        ⟨[("aaaaaa", "u")], 1, 0⟩ = some out := by
  refine ⟨by decide, by decide, ?_⟩
  rintro ⟨fuel, out, h⟩
  have key : ∀ fuel i, findFreshCode (fun _ => "aaaaaa") [("aaaaaa", "u")] fuel i = none := by
    intro fuel
    induction fuel with
    | zero => intro i; rfl
    | succ n ih =>
      intro i
      simp only [findFreshCode]
      rw [if_pos (by decide)]
      exact ih (i + 1)
  rw [@encurtar_url_eq_none (fun _ => "aaaaaa") [("url_longa", "http://x")]
    "http://x" fuel ⟨[("aaaaaa", "u")], 1, 0⟩ (by decide) (key fuel 0)] at h
  exact Option.noConfusion h
